import Mathlib

/-!
Verification development for the landscape-client broker and the
ComputerInfo monitor plugin.

The broker itself (MessageStore, BrokerServer, the event reactor and the
client registry) ships outside this tree; only its tests are present here,
so those components are modelled from the specification, faithful to its
words, and the theorems below are checked against that model.  The
ComputerInfo plugin is present in source form
(landscape/monitor/computerinfo.py) and is embedded directly.
-/

namespace Landscape

/-- Status values carried by operation-result messages. -/
inductive OpStatus where
  | succeeded
  | failed
deriving DecidableEq, Repr

/-- A wire message: a type tag plus the fields the claims are about. -/
structure Msg where
  mtype : String
  operationId : Option Nat := none
  status : Option OpStatus := none
  resultText : Option String := none
deriving DecidableEq, Repr

/-- A queued outbound message together with its assigned sequence number. -/
structure PendingMessage where
  msg : Msg
  sequence : Nat
deriving DecidableEq, Repr

/-- Modelled from the spec: the MessageStore of section 4.1.  Session ids
are minted from a fresh counter (the spec only requires a new,
previously-unused value after each `drop_session_ids`); `issued` records
every id ever handed out so freshness can be stated.  `nextSequence` is
the next sequence number to assign; `pending` is the durable outbound
queue in enqueue order. -/
structure MessageStore where
  sessionId : Option Nat
  nextSessionId : Nat
  issued : List Nat
  nextSequence : Nat
  pending : List PendingMessage
  acceptedTypes : List String
  serverUuid : Option String
deriving DecidableEq, Repr

/-- Modelled from the spec: `get_session_id()` returns the current session
id, minting one if none exists (idempotent while a session is active). -/
def MessageStore.get_session_id (s : MessageStore) : Nat × MessageStore :=
  match s.sessionId with
  | some sid => (sid, s)
  | none =>
      (s.nextSessionId,
       { s with sessionId := some s.nextSessionId,
                nextSessionId := s.nextSessionId + 1,
                issued := s.issued ++ [s.nextSessionId] })

/-- Modelled from the spec: `drop_session_ids()` invalidates the current
session id. -/
def MessageStore.drop_session_ids (s : MessageStore) : MessageStore :=
  { s with sessionId := none }

/-- Modelled from the spec: append a message to the queue, assigning the
next sequence number (used both by `add` and by the synthesized
operation-result path of inbound dispatch). -/
def MessageStore.enqueue (s : MessageStore) (m : Msg) : MessageStore :=
  { s with pending := s.pending ++ [{ msg := m, sequence := s.nextSequence }],
           nextSequence := s.nextSequence + 1 }

/-- Outcome of a send: a fatal programming error (a raised RuntimeError),
a queued message with its assigned id, or a silent drop. -/
inductive SendResult where
  | fatalError
  | queued (messageId : Nat)
  | dropped
deriving DecidableEq, Repr

/-- Modelled from the spec: `add(message, session_id)` rejects with a
fatal error when the session id is unset, silently drops the message when
the id does not match the current session, and otherwise assigns the next
sequence number, persists and returns the assigned id. -/
def MessageStore.add (s : MessageStore) (m : Msg) (sid : Option Nat) :
    SendResult × MessageStore :=
  match sid with
  | none => (.fatalError, s)
  | some v =>
      if s.sessionId = some v then
        (.queued s.nextSequence, s.enqueue m)
      else
        (.dropped, s)

/-- Modelled from the spec: `get_pending_messages()` returns the queue in
enqueue order. -/
def MessageStore.get_pending_messages (s : MessageStore) : List PendingMessage :=
  s.pending

/-- Modelled from the spec: `is_pending(message_id)`. -/
def MessageStore.is_pending (s : MessageStore) (messageId : Nat) : Bool :=
  s.pending.any (fun p => decide (p.sequence = messageId))

/-- Modelled from the spec: the broker coordinator state the send-path
claims need: the owned MessageStore plus whether an urgent exchange has
been requested from the Exchanger. -/
structure BrokerServer where
  mstore : MessageStore
  exchangerUrgent : Bool
deriving DecidableEq, Repr

/-- Modelled from the spec: `BrokerServer.get_session_id` delegates to the
MessageStore. -/
def BrokerServer.get_session_id (b : BrokerServer) : Nat × BrokerServer :=
  let r := b.mstore.get_session_id
  (r.1, { b with mstore := r.2 })

/-- Modelled from the spec: `send_message(message, session_id, urgent)`
validates the session id (fatal error if none; silent drop if stale),
delegates to the MessageStore, and when the message is queued with
`urgent` set requests an immediate exchange cycle. -/
def BrokerServer.send_message (b : BrokerServer) (m : Msg) (sid : Option Nat)
    (urgent : Bool) : SendResult × BrokerServer :=
  let r := b.mstore.add m sid
  match r.1 with
  | .queued i =>
      (.queued i, { mstore := r.2, exchangerUrgent := b.exchangerUrgent || urgent })
  | res => (res, { b with mstore := r.2 })

/-- Iterate `send_message` over a list of messages, all with the same
session id and non-urgent, collecting the ids of the queued ones. -/
def BrokerServer.sendAll : BrokerServer → Nat → List Msg → List Nat × BrokerServer
  | b, _, [] => ([], b)
  | b, sid, m :: ms =>
      let r := b.send_message m (some sid) false
      let rest := BrokerServer.sendAll r.2 sid ms
      match r.1 with
      | .queued i => (i :: rest.1, rest.2)
      | _ => rest

/-- C3: calling send_message with None as the session id fails with a
fatal programming error (the modelled RuntimeError), leaving the broker
untouched: the message is neither queued nor silently dropped. -/
theorem send_message_none_session_is_fatal (b : BrokerServer) (m : Msg)
    (urgent : Bool) :
    b.send_message m none urgent = (SendResult.fatalError, b) := by
  rfl

/-- C2: for every message and every session id that is set but differs
from the current session id of the store, send_message silently drops the
message: the result is `dropped` (no exception, no message id) and the
broker state, in particular the pending queue, is unchanged. -/
theorem send_message_stale_session_drops (b : BrokerServer) (m : Msg)
    (v : Nat) (urgent : Bool) (h : b.mstore.sessionId ≠ some v) :
    b.send_message m (some v) urgent = (SendResult.dropped, b) := by
  simp [BrokerServer.send_message, MessageStore.add, if_neg h]

/-- A concrete fresh store, used to instantiate hypotheses of the
theorems on concrete inputs. -/
def sampleStore : MessageStore :=
  { sessionId := none, nextSessionId := 0, issued := [], nextSequence := 0,
    pending := [], acceptedTypes := ["test"], serverUuid := none }

/-- A concrete store with an active session id 0. -/
def sampleStoreActive : MessageStore :=
  { sessionId := some 0, nextSessionId := 1, issued := [0], nextSequence := 0,
    pending := [], acceptedTypes := ["test"], serverUuid := none }

/-- A concrete fresh broker. -/
def sampleBroker : BrokerServer :=
  { mstore := sampleStore, exchangerUrgent := false }

/-- A concrete broker with an active session id 0. -/
def sampleBrokerActive : BrokerServer :=
  { mstore := sampleStoreActive, exchangerUrgent := false }

/-- C2 witness: a concrete stale send is dropped without touching the
pending queue. -/
theorem send_message_stale_session_drops_witness :
    (sampleBrokerActive.mstore.sessionId ≠ some 7) ∧
    sampleBrokerActive.send_message { mtype := "test" } (some 7) false =
      (SendResult.dropped, sampleBrokerActive) :=
  ⟨by decide,
   send_message_stale_session_drops sampleBrokerActive { mtype := "test" } 7
     false (by decide)⟩

/-- After `get_session_id`, the store holds exactly the returned id as
its current session. -/
theorem MessageStore.get_session_id_sessionId (s : MessageStore) :
    (s.get_session_id).2.sessionId = some (s.get_session_id).1 := by
  cases h : s.sessionId <;> simp [MessageStore.get_session_id, h]

/-- Minting a session id never disturbs the queue bookkeeping. -/
theorem MessageStore.get_session_id_queue (s : MessageStore) :
    (s.get_session_id).2.pending = s.pending ∧
    (s.get_session_id).2.nextSequence = s.nextSequence := by
  cases h : s.sessionId <;> simp [MessageStore.get_session_id, h]

/-- C4: get_session_id is idempotent while a session is active (a second
call returns the same id), and once drop_session_ids has run the next
get_session_id returns an id distinct from every id issued before the
drop, in particular from the first one.  The hypotheses are the store
invariants: every issued id is below the freshness counter, and the
current session id, when set, was issued. -/
theorem get_session_id_idempotent_and_fresh_after_drop (s : MessageStore)
    (hissued : ∀ i ∈ s.issued, i < s.nextSessionId)
    (hcur : ∀ k, s.sessionId = some k → k ∈ s.issued) :
    ((s.get_session_id).2.get_session_id).1 = (s.get_session_id).1 ∧
    ((s.get_session_id).2.drop_session_ids.get_session_id).1 ∉
      (s.get_session_id).2.drop_session_ids.issued ∧
    (s.get_session_id).1 ∈ (s.get_session_id).2.drop_session_ids.issued ∧
    (s.get_session_id).1 ≠
      ((s.get_session_id).2.drop_session_ids.get_session_id).1 := by
  cases h : s.sessionId with
  | some k =>
      have hk : k ∈ s.issued := hcur k h
      have hklt : k < s.nextSessionId := hissued k hk
      constructor
      · simp [MessageStore.get_session_id, h]
      constructor
      · simp only [MessageStore.get_session_id, h, MessageStore.drop_session_ids]
        intro hmem
        exact absurd (hissued _ hmem) (by omega)
      constructor
      · simpa [MessageStore.get_session_id, h, MessageStore.drop_session_ids]
          using hk
      · simp only [MessageStore.get_session_id, h, MessageStore.drop_session_ids]
        omega
  | none =>
      constructor
      · simp [MessageStore.get_session_id, h]
      constructor
      · simp only [MessageStore.get_session_id, h, MessageStore.drop_session_ids]
        simp only [List.mem_append, List.mem_singleton]
        rintro (hmem | hmem)
        · exact absurd (hissued _ hmem) (by omega)
        · omega
      constructor
      · simp [MessageStore.get_session_id, h, MessageStore.drop_session_ids]
      · simp only [MessageStore.get_session_id, h, MessageStore.drop_session_ids]
        omega

/-- C4 witness: on a concrete store the second call repeats the id, and
after a drop the next id is new. -/
theorem get_session_id_idempotent_and_fresh_after_drop_witness :
    ((∀ i ∈ sampleStore.issued, i < sampleStore.nextSessionId) ∧
     (∀ k, sampleStore.sessionId = some k → k ∈ sampleStore.issued)) ∧
    ((sampleStore.get_session_id).2.get_session_id).1 =
      (sampleStore.get_session_id).1 ∧
    ((sampleStore.get_session_id).2.drop_session_ids.get_session_id).1 ∉
      (sampleStore.get_session_id).2.drop_session_ids.issued :=
  ⟨⟨by decide, by decide⟩,
   (get_session_id_idempotent_and_fresh_after_drop sampleStore
      (by decide) (by decide)).1,
   (get_session_id_idempotent_and_fresh_after_drop sampleStore
      (by decide) (by decide)).2.1⟩

/-- Pair a list of messages with consecutive sequence numbers starting at
`n`, as the store does when enqueuing them one by one. -/
def tagFrom : List Msg → Nat → List PendingMessage
  | [], _ => []
  | m :: ms, n => { msg := m, sequence := n } :: tagFrom ms (n + 1)

theorem tagFrom_map_msg (msgs : List Msg) (n : Nat) :
    (tagFrom msgs n).map PendingMessage.msg = msgs := by
  induction msgs generalizing n with
  | nil => rfl
  | cons m ms ih => simp [tagFrom, ih]

theorem tagFrom_map_sequence (msgs : List Msg) (n : Nat) :
    (tagFrom msgs n).map PendingMessage.sequence = List.range' n msgs.length := by
  induction msgs generalizing n with
  | nil => rfl
  | cons m ms ih => simp [tagFrom, ih, List.range'_succ]

theorem tagFrom_append_cons (msgs : List Msg) (m : Msg) (n : Nat) :
    ({ msg := m, sequence := n } : PendingMessage) :: tagFrom msgs (n + 1) =
      tagFrom (m :: msgs) n := rfl

/-- With a valid session id, `sendAll` queues every message in order:
the returned ids are the consecutive sequence numbers starting at the
current counter, and the new queue is the old one followed by the tagged
messages. -/
theorem sendAll_valid_session (msgs : List Msg) :
    ∀ (b : BrokerServer) (sid : Nat), b.mstore.sessionId = some sid →
    BrokerServer.sendAll b sid msgs =
      (List.range' b.mstore.nextSequence msgs.length,
       { mstore :=
           { b.mstore with
             pending := b.mstore.pending ++ tagFrom msgs b.mstore.nextSequence,
             nextSequence := b.mstore.nextSequence + msgs.length },
         exchangerUrgent := b.exchangerUrgent }) := by
  induction msgs with
  | nil =>
      intro b sid h
      simp [BrokerServer.sendAll, tagFrom]
  | cons m ms ih =>
      intro b sid h
      have hstep :
          b.send_message m (some sid) false =
            (SendResult.queued b.mstore.nextSequence,
             { mstore := b.mstore.enqueue m,
               exchangerUrgent := b.exchangerUrgent }) := by
        simp [BrokerServer.send_message, MessageStore.add, h]
      have hsession :
          ({ mstore := b.mstore.enqueue m,
             exchangerUrgent := b.exchangerUrgent } : BrokerServer).mstore.sessionId
            = some sid := by
        simpa [MessageStore.enqueue] using h
      have ihr := ih { mstore := b.mstore.enqueue m,
                       exchangerUrgent := b.exchangerUrgent } sid hsession
      simp only [BrokerServer.sendAll, hstep, ihr]
      simp [MessageStore.enqueue, List.range'_succ, tagFrom]
      omega

/-- C1: for every sequence of send_message calls that all use the session
id returned by a single get_session_id call, the messages appear in
get_pending_messages in exactly the call order (appended after whatever
was already queued), the queue keeps strictly increasing sequence
numbers, and the assigned ids are strictly increasing and all at least
the sequence counter of the store before the calls, hence never assigned
before in the store lifetime.  The hypotheses are the store invariants:
every queued sequence number is below the counter and the queue is
strictly sorted by sequence number. -/
theorem send_message_queue_order (b : BrokerServer) (msgs : List Msg)
    (hbound : ∀ p ∈ b.mstore.pending, p.sequence < b.mstore.nextSequence)
    (hsorted : (b.mstore.pending.map PendingMessage.sequence).Sorted (· < ·)) :
    ((BrokerServer.sendAll (b.get_session_id).2 (b.get_session_id).1
        msgs).2.mstore.get_pending_messages.map PendingMessage.msg =
      (b.get_session_id).2.mstore.get_pending_messages.map PendingMessage.msg
        ++ msgs) ∧
    ((BrokerServer.sendAll (b.get_session_id).2 (b.get_session_id).1
        msgs).2.mstore.get_pending_messages.map
          PendingMessage.sequence).Sorted (· < ·) ∧
    ((BrokerServer.sendAll (b.get_session_id).2 (b.get_session_id).1
        msgs).1.Sorted (· < ·)) ∧
    (∀ i ∈ (BrokerServer.sendAll (b.get_session_id).2 (b.get_session_id).1
        msgs).1, b.mstore.nextSequence ≤ i) := by
  have hq := MessageStore.get_session_id_queue b.mstore
  have hsid : (b.get_session_id).2.mstore.sessionId =
      some (b.get_session_id).1 := by
    simp only [BrokerServer.get_session_id]
    exact MessageStore.get_session_id_sessionId b.mstore
  have hpend : (b.get_session_id).2.mstore.pending = b.mstore.pending := by
    simp only [BrokerServer.get_session_id]
    exact hq.1
  have hseq : (b.get_session_id).2.mstore.nextSequence =
      b.mstore.nextSequence := by
    simp only [BrokerServer.get_session_id]
    exact hq.2
  have hall := sendAll_valid_session msgs (b.get_session_id).2
    (b.get_session_id).1 hsid
  refine ⟨?_, ?_, ?_, ?_⟩
  · simp [hall, MessageStore.get_pending_messages, tagFrom_map_msg]
  · simp only [hall, MessageStore.get_pending_messages, List.map_append,
      tagFrom_map_sequence, hpend, hseq]
    rw [List.Sorted, List.pairwise_append]
    refine ⟨hsorted, List.pairwise_lt_range' _ _, ?_⟩
    intro x hx y hy
    have hx2 : x < b.mstore.nextSequence := by
      rcases List.mem_map.mp hx with ⟨p, hp, rfl⟩
      exact hbound p hp
    have hy2 : b.mstore.nextSequence ≤ y := (List.mem_range'_1.mp hy).1
    omega
  · simp only [hall, hseq]
    exact List.pairwise_lt_range' _ _
  · intro i hi
    simp only [hall, hseq] at hi
    exact (List.mem_range'_1.mp hi).1

/-- C1 witness: two concrete messages sent against a fresh session end up
queued in order. -/
theorem send_message_queue_order_witness :
    ((∀ p ∈ sampleBroker.mstore.pending,
        p.sequence < sampleBroker.mstore.nextSequence) ∧
     (sampleBroker.mstore.pending.map PendingMessage.sequence).Sorted (· < ·)) ∧
    ((BrokerServer.sendAll (sampleBroker.get_session_id).2
        (sampleBroker.get_session_id).1
        [{ mtype := "test" }, { mtype := "test2" }]).2.mstore.get_pending_messages.map
          PendingMessage.msg =
      (sampleBroker.get_session_id).2.mstore.get_pending_messages.map
        PendingMessage.msg ++ [{ mtype := "test" }, { mtype := "test2" }]) :=
  ⟨⟨by decide, by decide⟩,
   (send_message_queue_order sampleBroker
      [{ mtype := "test" }, { mtype := "test2" }] (by decide) (by decide)).1⟩

/-- Modelled from the spec: a registered client of the Client Registry,
described by its name and by the outcome of its asynchronous `exit()`
call (`none` when exit succeeds with None, `some e` when it fails with
error `e`). -/
structure BClient where
  name : String
  exitFailure : Option String
deriving DecidableEq, Repr

/-- Modelled from the spec: `stop_clients()` invokes `exit()` on each
registered client with no short-circuit, and returns a future that
succeeds (with None) only when every `exit()` succeeded; otherwise it
fails with the first failure.  The first component lists the clients
whose `exit()` was invoked, in registry order; the second is the outcome
of the returned future. -/
def stop_clients (clients : List BClient) : List String × Option String :=
  (clients.map (fun c => c.name),
   (clients.filterMap (fun c => c.exitFailure)).head?)

/-- C5: stop_clients invokes exit on every registered client, in order,
even when some exit fails; the returned future fails exactly when at
least one individual exit failed (succeeding with None when all
succeed), and any surfaced failure is the failure of one of the
clients. -/
theorem stop_clients_all_called_and_fails_iff (clients : List BClient) :
    (stop_clients clients).1 = clients.map (fun c => c.name) ∧
    ((stop_clients clients).2 = none ↔
      ∀ c ∈ clients, c.exitFailure = none) ∧
    (∀ e, (stop_clients clients).2 = some e →
      ∃ c ∈ clients, c.exitFailure = some e) := by
  refine ⟨rfl, ?_, ?_⟩
  · simp only [stop_clients, List.head?_eq_none_iff, List.filterMap_eq_nil_iff]
  · intro e he
    simp only [stop_clients] at he
    have hmem : e ∈ clients.filterMap (fun c => c.exitFailure) :=
      List.mem_of_mem_head? he
    rcases List.mem_filterMap.mp hmem with ⟨c, hc, hce⟩
    exact ⟨c, hc, hce⟩

/-- Concrete clients: one clean exit and one failing exit. -/
def sampleClients : List BClient :=
  [{ name := "foo", exitFailure := none },
   { name := "bar", exitFailure := some "boom" }]

/-- C5 witness: with one failing client both exits are issued and the
surfaced failure is that of the failing client. -/
theorem stop_clients_all_called_and_fails_iff_witness :
    ((stop_clients sampleClients).2 = some "boom") ∧
    (stop_clients sampleClients).1 = sampleClients.map (fun c => c.name) ∧
    ∃ c ∈ sampleClients, c.exitFailure = some "boom" :=
  ⟨by decide,
   (stop_clients_all_called_and_fails_iff sampleClients).1,
   (stop_clients_all_called_and_fails_iff sampleClients).2.2 "boom"
     (by decide)⟩

/-- Modelled from the spec: the observable outcome of `BrokerServer.exit`:
which clients had `exit()` invoked, whether the process reactor was
stopped afterwards, and the outcome of the returned future. -/
structure ExitOutcome where
  clientsCalled : List String
  reactorStopped : Bool
  exitFailure : Option String
deriving DecidableEq, Repr

/-- Modelled from the spec: `exit()` calls `stop_clients()` on the Client
Registry and then, on success and on failure alike (the deferred is
chained with an addBoth-style continuation), stops the process reactor
and swallows the client error. -/
def broker_exit (clients : List BClient) : ExitOutcome :=
  match stop_clients clients with
  | (called, none) =>
      { clientsCalled := called, reactorStopped := true, exitFailure := none }
  | (called, some _) =>
      { clientsCalled := called, reactorStopped := true, exitFailure := none }

/-- C6: whatever the outcomes of the registered clients exit calls,
BrokerServer.exit always stops the process reactor afterwards, and every
client had its exit invoked first: a client shutdown failure never
prevents process exit. -/
theorem broker_exit_always_stops_reactor (clients : List BClient) :
    (broker_exit clients).reactorStopped = true ∧
    (broker_exit clients).clientsCalled = clients.map (fun c => c.name) := by
  cases h : (clients.filterMap (fun c => c.exitFailure)).head? with
  | none => simp [broker_exit, stop_clients, h]
  | some e => simp [broker_exit, stop_clients, h]

/-- The synthesized failure report for an inbound message of type `t`
carrying operation id `oid` that no client handled: an operation-result
message with failed status, the same operation id, and a human-readable
explanation naming the unhandled type. -/
def failedOperationResult (oid : Nat) (t : String) : Msg :=
  { mtype := "operation-result",
    operationId := some oid,
    status := some OpStatus.failed,
    resultText :=
      some ("Landscape client failed to handle this request (" ++ t ++ ")") }

/-- Modelled from the spec: inbound dispatch of a server message.  The
broker asks every registered client in turn; `results` are the boolean
outcomes of the clients message handlers.  When no handler returned true
the failure is logged and, if the message carried an operation id, a
failed operation-result message for that id is enqueued; when some
client handled the message nothing is enqueued. -/
def message_delivered (results : List Bool) (m : Msg) (s : MessageStore) :
    MessageStore :=
  if results.any (fun r => r) then s
  else
    match m.operationId with
    | some oid => s.enqueue (failedOperationResult oid m.mtype)
    | none => s

/-- C8: for every inbound message carrying an operation id that no
registered client handles (every handler returned false), exactly one
pending operation-result message is enqueued, with failed status, the
same operation id and a human-readable result text; when some client
handled it, the store is untouched. -/
theorem unhandled_message_enqueues_failed_result (results : List Bool)
    (m : Msg) (oid : Nat) (s : MessageStore) (hoid : m.operationId = some oid) :
    ((∀ r ∈ results, r = false) →
      (message_delivered results m s).pending =
        s.pending ++
          [{ msg := failedOperationResult oid m.mtype,
             sequence := s.nextSequence }]) ∧
    ((failedOperationResult oid m.mtype).status = some OpStatus.failed ∧
     (failedOperationResult oid m.mtype).operationId = some oid ∧
     (failedOperationResult oid m.mtype).resultText =
       some ("Landscape client failed to handle this request ("
          ++ m.mtype ++ ")")) ∧
    ((∃ r ∈ results, r = true) → message_delivered results m s = s) := by
  refine ⟨?_, ⟨rfl, rfl, rfl⟩, ?_⟩
  · intro hall
    have hfalse : results.any (fun r => r) = false := by
      simp only [List.any_eq_false]
      intro r hr
      simp [hall r hr]
    simp [message_delivered, hfalse, hoid, MessageStore.enqueue]
  · intro hsome
    have htrue : results.any (fun r => r) = true := by
      rcases hsome with ⟨r, hr, hrt⟩
      exact List.any_eq_true.mpr ⟨r, hr, by simp [hrt]⟩
    simp [message_delivered, htrue]

/-- C8 witness: the test scenario, a foobar message with operation id 4
and a single client answering false, yields exactly the failed
operation-result entry. -/
theorem unhandled_message_enqueues_failed_result_witness :
    (({ mtype := "foobar", operationId := some 4 } : Msg).operationId =
      some 4) ∧
    ((∀ r ∈ [false], r = false) ∧
     (message_delivered [false] { mtype := "foobar", operationId := some 4 }
        sampleStore).pending =
       sampleStore.pending ++
         [{ msg := failedOperationResult 4 "foobar",
            sequence := sampleStore.nextSequence }]) :=
  ⟨by decide,
   by decide,
   (unhandled_message_enqueues_failed_result [false]
      { mtype := "foobar", operationId := some 4 } 4 sampleStore rfl).1
     (by decide)⟩

/-! ## ComputerInfo monitor plugin (landscape/monitor/computerinfo.py) -/

/-- A value stored in the plugin persist or placed in a message: the
hostname string, a memory amount, or the annotations dictionary. -/
inductive CIValue where
  | str (s : String)
  | num (n : Nat)
  | dict (d : List (String × String))
deriving DecidableEq, Repr

/-- A string-keyed dictionary, used both for the persist and for the
message under construction. -/
abbrev CIDict := List (String × CIValue)

/-- Lookup in a CIDict, as Python dict.get: none when the key is
missing. -/
def ciGet (p : CIDict) (k : String) : Option CIValue :=
  match p with
  | [] => none
  | (k2, v) :: rest => if k2 = k then some v else ciGet rest k

/-- Update or insert a key in a CIDict, as Python dict assignment. -/
def ciSet (p : CIDict) (k : String) (v : CIValue) : CIDict :=
  match p with
  | [] => [(k, v)]
  | (k2, v2) :: rest =>
      if k2 = k then (k, v) :: rest else (k2, v2) :: ciSet rest k v

theorem ciGet_ciSet (p : CIDict) (k : String) (v : CIValue) :
    ciGet (ciSet p k v) k = some v := by
  induction p with
  | nil => simp [ciSet, ciGet]
  | cons hd tl ih =>
      by_cases h : hd.1 = k
      · simp [ciSet, ciGet, h]
      · simp [ciSet, ciGet, h, ih]

/-- ComputerInfo._add_if_new: put `key` into the message only when
`value` differs from the persisted value, updating the persist to the
new value in that case.  Returns the updated message and persist. -/
def addIfNew (message persist : CIDict) (key : String) (value : CIValue) :
    CIDict × CIDict :=
  if ciGet persist key ≠ some value then
    (message ++ [(key, value)], ciSet persist key value)
  else
    (message, persist)

/-- Number of retries to get EC2 meta-data (computerinfo.py line 12). -/
def METADATA_RETRY_MAX : Nat := 3

/-- The mutable plugin state read and written by
_create_computer_info_message: the persist, the cached cloud meta-data
and the retry counter. -/
structure ComputerInfoState where
  persist : CIDict
  cloudMetaData : Option (List (String × String))
  cloudRetries : Nat
deriving DecidableEq, Repr

/-- The environment one run of _create_computer_info_message observes:
the fqdn, the meminfo totals, the annotation files read from the
annotations directory, and the result of _fetch_ec2_meta_data (`none`
when the fetch errored, in which case the errback also bumped the retry
counter). -/
structure ComputerInfoInput where
  fqdn : String
  totalMemory : Nat
  totalSwap : Nat
  annotationFiles : List (String × String)
  fetchedMetaData : Option (List (String × String))
deriving DecidableEq, Repr

/-- ComputerInfo._create_computer_info_message, embedded statement by
statement: hostname, total-memory and total-swap go through _add_if_new;
the annotations directory is read; the cloud meta-data is fetched when
absent and under the retry limit; the merge of the cloud meta-data into
the annotations sits behind the hard-coded `if False` of the source
(computerinfo.py line 90) and is therefore dead; a non-empty annotations
dict goes through _add_if_new.  Returns the message and the new plugin
state. -/
def create_computer_info_message (st : ComputerInfoState)
    (inp : ComputerInfoInput) : CIDict × ComputerInfoState :=
  let r1 := addIfNew [] st.persist "hostname" (CIValue.str inp.fqdn)
  let r2 := addIfNew r1.1 r1.2 "total-memory" (CIValue.num inp.totalMemory)
  let r3 := addIfNew r2.1 r2.2 "total-swap" (CIValue.num inp.totalSwap)
  let annotationsRead := inp.annotationFiles
  let cloud :=
    if st.cloudMetaData = none ∧ st.cloudRetries < METADATA_RETRY_MAX then
      (inp.fetchedMetaData,
       match inp.fetchedMetaData with
       | none => st.cloudRetries + 1
       | some _ => st.cloudRetries)
    else (st.cloudMetaData, st.cloudRetries)
  let annotationsMerged :=
    if false then annotationsRead ++ (cloud.1.getD []) else annotationsRead
  let r4 :=
    if annotationsMerged ≠ [] then
      addIfNew r3.1 r3.2 "annotations" (CIValue.dict annotationsMerged)
    else (r3.1, r3.2)
  (r4.1, { persist := r4.2, cloudMetaData := cloud.1,
           cloudRetries := cloud.2 })

/-- ComputerInfo._create_distribution_info_message: return the parsed
lsb-release dictionary when it differs from the persisted one, updating
the persist, and None otherwise. -/
def create_distribution_info_message (persist : CIDict)
    (lsb : List (String × String)) :
    Option (List (String × String)) × CIDict :=
  if some (CIValue.dict lsb) ≠ ciGet persist "distribution-info" then
    (some lsb, ciSet persist "distribution-info" (CIValue.dict lsb))
  else
    (none, persist)

/-- C9: the message built by _create_computer_info_message never depends
on the cloud meta-data: for any two runs that agree on the persist, the
fqdn, the memory totals and the annotation files but differ arbitrarily
in cached cloud meta-data, retry counter and fetch outcome (successful
fetches included), the returned messages are identical, because the
merge branch is guarded by the constant False of the source. -/
theorem computer_info_message_ignores_cloud_metadata (persist : CIDict)
    (cm1 cm2 : Option (List (String × String))) (r1 r2 : Nat)
    (fqdn : String) (mem swp : Nat) (annotationFiles : List (String × String))
    (f1 f2 : Option (List (String × String))) :
    (create_computer_info_message
        { persist := persist, cloudMetaData := cm1, cloudRetries := r1 }
        { fqdn := fqdn, totalMemory := mem, totalSwap := swp,
          annotationFiles := annotationFiles, fetchedMetaData := f1 }).1 =
    (create_computer_info_message
        { persist := persist, cloudMetaData := cm2, cloudRetries := r2 }
        { fqdn := fqdn, totalMemory := mem, totalSwap := swp,
          annotationFiles := annotationFiles, fetchedMetaData := f2 }).1 := by
  rfl

/-- C10: ComputerInfo reports only deltas: _add_if_new adds the key
exactly when the value differs from the persisted one, always leaves the
persist holding that value, so a second call with the same input adds
nothing and changes nothing; and _create_distribution_info_message
returns None exactly when the distribution info equals the persisted
one. -/
theorem computer_info_reports_only_deltas (m m2 p : CIDict) (k : String)
    (v : CIValue) (d : List (String × String)) :
    ((addIfNew m p k v).1 = m ↔ ciGet p k = some v) ∧
    ciGet (addIfNew m p k v).2 k = some v ∧
    addIfNew m2 (addIfNew m p k v).2 k v = (m2, (addIfNew m p k v).2) ∧
    ((create_distribution_info_message p d).1 = none ↔
      ciGet p "distribution-info" = some (CIValue.dict d)) := by
  have hpersist : ciGet (addIfNew m p k v).2 k = some v := by
    by_cases h : ciGet p k = some v
    · simp [addIfNew, h]
    · simp [addIfNew, h, ciGet_ciSet]
  refine ⟨?_, hpersist, ?_, ?_⟩
  · by_cases h : ciGet p k = some v
    · simp [addIfNew, h]
    · simp only [addIfNew, if_pos (by simpa using h)]
      constructor
      · intro hm
        have := congrArg List.length hm
        simp at this
      · intro hm
        exact absurd hm h
  · by_cases h : ciGet p k = some v
    · simp [addIfNew, h]
    · simp [addIfNew, h, ciGet_ciSet]
  · by_cases h : ciGet p "distribution-info" = some (CIValue.dict d)
    · simp [create_distribution_info_message, h]
    · have hne : some (CIValue.dict d) ≠ ciGet p "distribution-info" :=
        fun heq => h heq.symm
      constructor
      · intro hnone
        simp only [create_distribution_info_message, if_pos hne] at hnone
        exact Option.noConfusion hnone
      · intro hc
        exact absurd hc h

/-! ## Event fan-out and listen_events -/

/-- Modelled from the spec: the behaviour of a subscriber callback.  A
`plain` subscriber is an ordinary handler returning its value; a
`listenGroup` subscriber is one of the registrations installed by a
single `listen_events` call, identified by the group id of that call. -/
inductive HKind where
  | plain (ret : Option Nat)
  | listenGroup (gid : Nat)
deriving DecidableEq, Repr

/-- A registered subscriber: a registration id and its behaviour. -/
structure Sub where
  sid : Nat
  kind : HKind
deriving DecidableEq, Repr

/-- Modelled from the spec: the in-process publish/subscribe table of the
coordinator (section 9), keyed by event name with ordered subscriber
lists, plus the record of which listen_events group resolved on which
event name. -/
structure Bus where
  nextSid : Nat
  nextGid : Nat
  subs : List (String × Sub)
  resolved : List (Nat × String)
deriving DecidableEq, Repr

/-- Whether a subscriber belongs to listen group `g`. -/
def Sub.inGroup (s : Sub) (g : Nat) : Bool :=
  match s.kind with
  | HKind.listenGroup g2 => decide (g2 = g)
  | _ => false

/-- Modelled from the spec: register an ordinary callback on an event
name (the call_on of the reactor), returning its registration id. -/
def Bus.call_on (b : Bus) (name : String) (ret : Option Nat) : Nat × Bus :=
  (b.nextSid,
   { b with nextSid := b.nextSid + 1,
            subs := b.subs ++ [(name, { sid := b.nextSid,
                                        kind := HKind.plain ret })] })

/-- The registrations a `listen_events(names)` call installs: one
listener per listed name, all belonging to the next free group. -/
def groupEntries (b : Bus) (names : List String) : List (String × Sub) :=
  names.enum.map
    (fun p => (p.2, { sid := b.nextSid + p.1,
                      kind := HKind.listenGroup b.nextGid }))

/-- Modelled from the spec: `listen_events(names)` registers one one-shot
listener per listed name, all belonging to a fresh group; the deferred
of the group resolves on the first of those listeners to be invoked,
which also cancels every registration of the group. -/
def Bus.listen_events (b : Bus) (names : List String) : Nat × Bus :=
  (b.nextGid,
   { b with nextSid := b.nextSid + names.length,
            nextGid := b.nextGid + 1,
            subs := b.subs ++ groupEntries b names })

/-- Invoke one subscriber for an event firing named `name`: a plain
subscriber just returns its value; a listen-group subscriber resolves
its group with the fired name and cancels every registration of the
group (its own included: one-shot semantics). -/
def Bus.invoke (b : Bus) (name : String) (s : Sub) : Option Nat × Bus :=
  match s.kind with
  | HKind.plain ret => (ret, b)
  | HKind.listenGroup gid =>
      (none,
       { b with subs := b.subs.filter (fun p => !(p.2.inGroup gid)),
                resolved := b.resolved ++ [(gid, name)] })

/-- Run through the snapshot of subscribers taken when the fire started,
invoking each one that is still registered and skipping the ones
cancelled by an earlier invocation of the same fire. -/
def fireList (name : String) : List Sub → Bus → List (Option Nat) × Bus
  | [], b => ([], b)
  | s :: rest, b =>
      if b.subs.any (fun p => decide (p.2 = s)) then
        let r := b.invoke name s
        let rr := fireList name rest r.2
        (r.1 :: rr.1, rr.2)
      else
        fireList name rest b

/-- The snapshot a fire starts from: the subscribers registered on the
fired name, in registration order. -/
def eventSnapshot (l : List (String × Sub)) (name : String) : List Sub :=
  (l.filter (fun p => decide (p.1 = name))).map (fun p => p.2)

/-- Modelled from the spec: `fire_event(name)`: synchronous fan-out to
all subscribers of `name`, in registration order, collecting their
results. -/
def Bus.fire (b : Bus) (name : String) : List (Option Nat) × Bus :=
  fireList name (eventSnapshot b.subs name) b

/-- Whether a subscriber is an ordinary (non listen_events) callback. -/
def isPlain (p : String × Sub) : Bool :=
  match p.2.kind with
  | HKind.plain _ => true
  | _ => false

/-- The ordinary (non listen_events) subscribers of a table, in order. -/
def plains (l : List (String × Sub)) : List (String × Sub) :=
  l.filter isPlain

/-- The registrations of listen group `g` in a table, in order. -/
def groupSubs (g : Nat) (l : List (String × Sub)) : List (String × Sub) :=
  l.filter (fun p => p.2.inGroup g)

/-- The resolution records of listen group `g`. -/
def groupResolved (g : Nat) (r : List (Nat × String)) : List (Nat × String) :=
  r.filter (fun q => decide (q.1 = g))

theorem Sub.inGroup_eq_true_iff (s : Sub) (g : Nat) :
    s.inGroup g = true ↔ s.kind = HKind.listenGroup g := by
  cases hk : s.kind <;> simp [Sub.inGroup, hk]

/-- Cancelling a listen group never removes ordinary subscribers. -/
theorem plains_filter_not_inGroup (g : Nat) (l : List (String × Sub)) :
    plains (l.filter (fun p => !(p.2.inGroup g))) = plains l := by
  unfold plains
  rw [List.filter_filter]
  apply List.filter_congr
  intro p _
  cases hk : p.2.kind <;> simp [isPlain, Sub.inGroup, hk]

/-- Cancelling one listen group leaves the registrations of any other
group exactly in place. -/
theorem groupSubs_filter_other (g g2 : Nat) (hne : g ≠ g2)
    (l : List (String × Sub)) :
    groupSubs g (l.filter (fun p => !(p.2.inGroup g2))) = groupSubs g l := by
  unfold groupSubs
  rw [List.filter_filter]
  apply List.filter_congr
  intro p _
  cases hk : p.2.kind with
  | plain ret => simp [Sub.inGroup, hk]
  | listenGroup g3 =>
      by_cases h3 : g3 = g
      · subst h3
        simp [Sub.inGroup, hk, hne]
      · simp [Sub.inGroup, hk, h3]

/-- Cancelling a listen group removes all of its registrations. -/
theorem groupSubs_filter_self (g : Nat) (l : List (String × Sub)) :
    groupSubs g (l.filter (fun p => !(p.2.inGroup g))) = [] := by
  unfold groupSubs
  rw [List.filter_filter]
  apply List.filter_eq_nil_iff.mpr
  intro p _
  cases h : p.2.inGroup g <;> simp [h]

/-- A fire never disturbs ordinary subscribers, whatever its snapshot. -/
theorem fireList_plains (name : String) (l : List Sub) :
    ∀ b : Bus, plains ((fireList name l b).2.subs) = plains b.subs := by
  induction l with
  | nil => intro b; rfl
  | cons s rest ih =>
      intro b
      by_cases hpres : b.subs.any (fun p => decide (p.2 = s)) = true
      · have hinv : plains ((b.invoke name s).2.subs) = plains b.subs := by
          cases hk : s.kind with
          | plain ret => simp [Bus.invoke, hk]
          | listenGroup g2 =>
              simp [Bus.invoke, hk, plains_filter_not_inGroup]
        simp only [fireList, if_pos hpres]
        rw [ih]
        exact hinv
      · simp only [fireList, if_neg hpres]
        exact ih b

/-- Once a group has no registrations left, later processing never
revives it nor adds resolutions for it. -/
theorem fireList_group_gone (name : String) (g : Nat) (l : List Sub) :
    ∀ b : Bus, groupSubs g b.subs = [] →
    groupSubs g ((fireList name l b).2.subs) = [] ∧
    groupResolved g ((fireList name l b).2.resolved) =
      groupResolved g b.resolved := by
  induction l with
  | nil => intro b hempty; exact ⟨hempty, rfl⟩
  | cons s rest ih =>
      intro b hempty
      by_cases hpres : b.subs.any (fun p => decide (p.2 = s)) = true
      · rcases List.any_eq_true.mp hpres with ⟨p, hp, hps⟩
        have hps2 : p.2 = s := of_decide_eq_true hps
        cases hk : s.kind with
        | plain ret =>
            simp only [fireList, if_pos hpres, Bus.invoke, hk]
            exact ih b hempty
        | listenGroup g2 =>
            have hg2 : g2 ≠ g := by
              intro hcontra
              subst hcontra
              have hpg : p.2.inGroup g2 = true := by
                rw [hps2]
                exact (Sub.inGroup_eq_true_iff s g2).mpr hk
              have : p ∈ groupSubs g2 b.subs :=
                List.mem_filter.mpr ⟨hp, hpg⟩
              rw [hempty] at this
              exact absurd this (List.not_mem_nil p)
            simp only [fireList, if_pos hpres, Bus.invoke, hk]
            have hsubs :
                groupSubs g (b.subs.filter (fun p => !(p.2.inGroup g2))) = [] := by
              rw [groupSubs_filter_other g g2 (fun h => hg2 h.symm)]
              exact hempty
            have hres := ih { b with
                subs := b.subs.filter (fun p => !(p.2.inGroup g2)),
                resolved := b.resolved ++ [(g2, name)] } hsubs
            refine ⟨hres.1, ?_⟩
            rw [hres.2]
            simp [groupResolved, List.filter_append, hg2]
      · simp only [fireList, if_neg hpres]
        exact ih b hempty

/-- Processing a snapshot that contains no subscriber of group `g`
leaves the registrations and resolutions of `g` exactly as they were. -/
theorem fireList_other_groups (name : String) (g : Nat) (l : List Sub) :
    ∀ b : Bus, (∀ s ∈ l, s.inGroup g = false) →
    groupSubs g ((fireList name l b).2.subs) = groupSubs g b.subs ∧
    groupResolved g ((fireList name l b).2.resolved) =
      groupResolved g b.resolved := by
  induction l with
  | nil => intro b _; exact ⟨rfl, rfl⟩
  | cons s rest ih =>
      intro b hl
      have hs : s.inGroup g = false := hl s (List.mem_cons_self s rest)
      have hrest : ∀ t ∈ rest, t.inGroup g = false :=
        fun t ht => hl t (List.mem_cons_of_mem s ht)
      by_cases hpres : b.subs.any (fun p => decide (p.2 = s)) = true
      · cases hk : s.kind with
        | plain ret =>
            simp only [fireList, if_pos hpres, Bus.invoke, hk]
            exact ih b hrest
        | listenGroup g2 =>
            have hg2 : g2 ≠ g := by
              intro hcontra
              rw [(Sub.inGroup_eq_true_iff s g).mpr (hcontra ▸ hk)] at hs
              exact Bool.true_eq_false.mp hs
            simp only [fireList, if_pos hpres, Bus.invoke, hk]
            have hres := ih { b with
                subs := b.subs.filter (fun p => !(p.2.inGroup g2)),
                resolved := b.resolved ++ [(g2, name)] } hrest
            refine ⟨?_, ?_⟩
            · rw [hres.1]
              exact groupSubs_filter_other g g2 (fun h => hg2 h.symm) b.subs
            · rw [hres.2]
              simp [groupResolved, List.filter_append, hg2]
      · simp only [fireList, if_neg hpres]
        exact ih b hrest

/-- A snapshot consisting only of subscribers of a group that is already
cancelled is skipped entirely: every presence check fails. -/
theorem fireList_skip_cancelled (name : String) (g : Nat) (l : List Sub) :
    ∀ b : Bus, (∀ s ∈ l, s.inGroup g = true) → groupSubs g b.subs = [] →
    fireList name l b = ([], b) := by
  induction l with
  | nil => intro b _ _; rfl
  | cons s rest ih =>
      intro b hl hempty
      have hpres : b.subs.any (fun p => decide (p.2 = s)) = false := by
        apply List.any_eq_false.mpr
        intro p hp
        simp only [decide_eq_true_eq]
        intro hps
        have hpg : p.2.inGroup g = true := by
          rw [hps]
          exact hl s (List.mem_cons_self s rest)
        have : p ∈ groupSubs g b.subs := List.mem_filter.mpr ⟨hp, hpg⟩
        rw [hempty] at this
        exact absurd this (List.not_mem_nil p)
      simp only [fireList, hpres]
      simp only [Bool.false_eq_true, if_false]
      exact ih b (fun t ht => hl t (List.mem_cons_of_mem s ht)) hempty

theorem eventSnapshot_append (l1 l2 : List (String × Sub)) (name : String) :
    eventSnapshot (l1 ++ l2) name =
      eventSnapshot l1 name ++ eventSnapshot l2 name := by
  simp [eventSnapshot, List.filter_append]

/-- A fire never disturbs ordinary subscribers. -/
theorem fire_plains (b : Bus) (name : String) :
    plains ((b.fire name).2.subs) = plains b.subs :=
  fireList_plains name (eventSnapshot b.subs name) b

/-- Running a snapshot whose members all belong to group `g`, with its
head still registered, resolves the group exactly once with the fired
name and cancels every registration of the group; the remaining group
members of the snapshot are skipped. -/
theorem fireList_group_resolves (name : String) (g : Nat) (s0 : Sub)
    (tail : List Sub) (b : Bus) (hs0 : s0.inGroup g = true)
    (htail : ∀ s ∈ tail, s.inGroup g = true)
    (hpres : ∃ p ∈ b.subs, p.2 = s0) :
    groupSubs g ((fireList name (s0 :: tail) b).2.subs) = [] ∧
    groupResolved g ((fireList name (s0 :: tail) b).2.resolved) =
      groupResolved g b.resolved ++ [(g, name)] := by
  have hany : (b.subs.any fun p => decide (p.2 = s0)) = true := by
    rcases hpres with ⟨p, hp, hps⟩
    exact List.any_eq_true.mpr ⟨p, hp, decide_eq_true hps⟩
  have hk : s0.kind = HKind.listenGroup g := (Sub.inGroup_eq_true_iff s0 g).mp hs0
  have hempty : groupSubs g (b.subs.filter (fun p => !(p.2.inGroup g))) = [] :=
    groupSubs_filter_self g b.subs
  have hskip := fireList_skip_cancelled name g tail
      { b with subs := b.subs.filter (fun p => !(p.2.inGroup g)),
               resolved := b.resolved ++ [(g, name)] } htail hempty
  simp only [fireList, if_pos hany, Bus.invoke, hk, hskip]
  refine ⟨hempty, ?_⟩
  simp [groupResolved, List.filter_append]

/-- Processing a concatenated snapshot processes the two halves in
order, threading the state. -/
theorem fireList_append (name : String) (l1 l2 : List Sub) :
    ∀ b : Bus,
    fireList name (l1 ++ l2) b =
      ((fireList name l1 b).1 ++
         (fireList name l2 (fireList name l1 b).2).1,
       (fireList name l2 (fireList name l1 b).2).2) := by
  induction l1 with
  | nil => intro b; rfl
  | cons s rest ih =>
      intro b
      by_cases hpres : b.subs.any (fun p => decide (p.2 = s)) = true
      · simp only [List.cons_append, fireList, if_pos hpres,
          List.append_eq, ih]
      · simp only [List.cons_append, fireList, if_neg hpres,
          List.append_eq, ih]

theorem plains_append (l1 l2 : List (String × Sub)) :
    plains (l1 ++ l2) = plains l1 ++ plains l2 := by
  unfold plains
  exact List.filter_append l1 l2

theorem groupSubs_append (g : Nat) (l1 l2 : List (String × Sub)) :
    groupSubs g (l1 ++ l2) = groupSubs g l1 ++ groupSubs g l2 := by
  unfold groupSubs
  exact List.filter_append l1 l2

theorem isPlain_eq_false_of_inGroup (p : String × Sub) (g : Nat)
    (h : p.2.inGroup g = true) : isPlain p = false := by
  have hk := (Sub.inGroup_eq_true_iff p.2 g).mp h
  simp [isPlain, hk]

/-- C7: for every list of event names, the group installed by
listen_events resolves exactly once, on the first listed event to fire
(the resolution record of the returned group id after that fire is the
single pair of the group id with the fired name); a second firing of the
same or another listed event leaves that record unchanged, because every
registration of the group was cancelled when the first event fired; and
neither the firing nor the cancellation disturbs the ordinary
subscribers of the table, the ones on the same event names included.
The hypotheses say the returned group id is fresh: no current subscriber
and no recorded resolution uses it. -/
theorem listen_events_resolves_once (b : Bus) (names : List String)
    (e1 e2 : String) (he1 : e1 ∈ names) (he2 : e2 ∈ names)
    (hg : ∀ p ∈ b.subs, p.2.inGroup b.nextGid = false)
    (hr : ∀ q ∈ b.resolved, q.1 ≠ b.nextGid) :
    groupResolved (b.listen_events names).1
        (((b.listen_events names).2.fire e1).2.resolved) =
      [((b.listen_events names).1, e1)] ∧
    groupResolved (b.listen_events names).1
        ((((b.listen_events names).2.fire e1).2.fire e2).2.resolved) =
      [((b.listen_events names).1, e1)] ∧
    plains (((b.listen_events names).2.fire e1).2.subs) = plains b.subs ∧
    plains ((((b.listen_events names).2.fire e1).2.fire e2).2.subs) =
      plains b.subs := by
  simp only [show (b.listen_events names).1 = b.nextGid from rfl]
  have hb1subs : (b.listen_events names).2.subs =
      b.subs ++ groupEntries b names := rfl
  have hb1res : (b.listen_events names).2.resolved = b.resolved := rfl
  have hGall : ∀ p ∈ groupEntries b names, p.2.inGroup b.nextGid = true := by
    intro p hp
    rcases List.mem_map.mp hp with ⟨q, hq, rfl⟩
    simp [Sub.inGroup]
  have hGsubs : groupSubs b.nextGid (groupEntries b names) =
      groupEntries b names := List.filter_eq_self.mpr hGall
  have hbsubs : groupSubs b.nextGid b.subs = [] := by
    apply List.filter_eq_nil_iff.mpr
    intro p hp
    simp [hg p hp]
  have hbres : groupResolved b.nextGid b.resolved = [] := by
    apply List.filter_eq_nil_iff.mpr
    intro q hq
    simp [hr q hq]
  have hsnap : eventSnapshot ((b.listen_events names).2.subs) e1 =
      eventSnapshot b.subs e1 ++ eventSnapshot (groupEntries b names) e1 := by
    rw [hb1subs, eventSnapshot_append]
  have hGnames : (groupEntries b names).map (fun p => p.1) = names := by
    simp only [groupEntries, List.map_map, Function.comp]
    exact List.enum_map_snd names
  have he1m : e1 ∈ (groupEntries b names).map (fun p => p.1) := by
    rw [hGnames]
    exact he1
  rcases List.mem_map.mp he1m with ⟨q, hq, hq1⟩
  have hq2 : q.2 ∈ eventSnapshot (groupEntries b names) e1 :=
    List.mem_map.mpr ⟨q, List.mem_filter.mpr ⟨hq, decide_eq_true hq1⟩, rfl⟩
  obtain ⟨g0, gtail, hGf⟩ :=
    List.exists_cons_of_ne_nil (List.ne_nil_of_mem hq2)
  have hGfall : ∀ s ∈ eventSnapshot (groupEntries b names) e1,
      s.inGroup b.nextGid = true := by
    intro s hs
    rcases List.mem_map.mp hs with ⟨p, hp, rfl⟩
    exact hGall p (List.mem_of_mem_filter hp)
  have hAfall : ∀ s ∈ eventSnapshot b.subs e1,
      s.inGroup b.nextGid = false := by
    intro s hs
    rcases List.mem_map.mp hs with ⟨p, hp, rfl⟩
    exact hg p (List.mem_of_mem_filter hp)
  have hphase1 := fireList_other_groups e1 b.nextGid
    (eventSnapshot b.subs e1) (b.listen_events names).2 hAfall
  have hph1subs : groupSubs b.nextGid
      ((fireList e1 (eventSnapshot b.subs e1)
        (b.listen_events names).2).2.subs) = groupEntries b names := by
    rw [hphase1.1, hb1subs, groupSubs_append, hbsubs, hGsubs, List.nil_append]
  have hph1res : groupResolved b.nextGid
      ((fireList e1 (eventSnapshot b.subs e1)
        (b.listen_events names).2).2.resolved) = [] := by
    rw [hphase1.2, hb1res, hbres]
  have hs0 : g0.inGroup b.nextGid = true := by
    apply hGfall g0
    rw [hGf]
    exact List.mem_cons_self g0 gtail
  have htail : ∀ s ∈ gtail, s.inGroup b.nextGid = true := by
    intro s hs
    apply hGfall s
    rw [hGf]
    exact List.mem_cons_of_mem g0 hs
  have hpres : ∃ p ∈ (fireList e1 (eventSnapshot b.subs e1)
      (b.listen_events names).2).2.subs, p.2 = g0 := by
    have hg0 : g0 ∈ eventSnapshot (groupEntries b names) e1 := by
      rw [hGf]
      exact List.mem_cons_self g0 gtail
    rcases List.mem_map.mp hg0 with ⟨p, hp, hp2⟩
    have hpG : p ∈ groupSubs b.nextGid
        ((fireList e1 (eventSnapshot b.subs e1)
          (b.listen_events names).2).2.subs) := by
      rw [hph1subs]
      exact List.mem_of_mem_filter hp
    exact ⟨p, List.mem_of_mem_filter hpG, hp2⟩
  have hphase2 := fireList_group_resolves e1 b.nextGid g0 gtail
    (fireList e1 (eventSnapshot b.subs e1) (b.listen_events names).2).2
    hs0 htail hpres
  have hfire1 : ((b.listen_events names).2.fire e1).2 =
      (fireList e1 (g0 :: gtail)
        (fireList e1 (eventSnapshot b.subs e1)
          (b.listen_events names).2).2).2 := by
    show (fireList e1 (eventSnapshot ((b.listen_events names).2.subs) e1)
      (b.listen_events names).2).2 = _
    rw [hsnap, fireList_append, hGf]
  have hcon1 : groupResolved b.nextGid
      (((b.listen_events names).2.fire e1).2.resolved) = [(b.nextGid, e1)] := by
    rw [hfire1, hphase2.2, hph1res, List.nil_append]
  have hb2subs : groupSubs b.nextGid
      (((b.listen_events names).2.fire e1).2.subs) = [] := by
    rw [hfire1]
    exact hphase2.1
  have hplainsG : plains (groupEntries b names) = [] := by
    apply List.filter_eq_nil_iff.mpr
    intro p hp
    simp [isPlain_eq_false_of_inGroup p b.nextGid (hGall p hp)]
  have hcon3 : plains (((b.listen_events names).2.fire e1).2.subs) =
      plains b.subs := by
    rw [fire_plains, hb1subs, plains_append, hplainsG, List.append_nil]
  have hgone := fireList_group_gone e2 b.nextGid
    (eventSnapshot (((b.listen_events names).2.fire e1).2.subs) e2)
    ((b.listen_events names).2.fire e1).2 hb2subs
  refine ⟨hcon1, ?_, hcon3, ?_⟩
  · rw [show ((((b.listen_events names).2.fire e1).2.fire e2).2 : Bus) =
        (fireList e2 (eventSnapshot
          (((b.listen_events names).2.fire e1).2.subs) e2)
          ((b.listen_events names).2.fire e1).2).2 from rfl]
    rw [hgone.2, hcon1]
  · rw [fire_plains, hcon3]

/-- A concrete bus with one ordinary subscriber on event a. -/
def sampleBus : Bus :=
  { nextSid := 1, nextGid := 0,
    subs := [("a", { sid := 0, kind := HKind.plain (some 123) })],
    resolved := [] }

/-- C7 witness: listening on a and b on a concrete bus, firing a
resolves the group once with a, and the ordinary subscriber on a is
untouched. -/
theorem listen_events_resolves_once_witness :
    (("a" : String) ∈ ["a", "b"] ∧ ("b" : String) ∈ ["a", "b"] ∧
     (∀ p ∈ sampleBus.subs, p.2.inGroup sampleBus.nextGid = false) ∧
     (∀ q ∈ sampleBus.resolved, q.1 ≠ sampleBus.nextGid)) ∧
    groupResolved (sampleBus.listen_events ["a", "b"]).1
        (((sampleBus.listen_events ["a", "b"]).2.fire "a").2.resolved) =
      [((sampleBus.listen_events ["a", "b"]).1, "a")] ∧
    plains (((sampleBus.listen_events ["a", "b"]).2.fire "a").2.subs) =
      plains sampleBus.subs :=
  ⟨⟨by decide, by decide, by decide, by decide⟩,
   (listen_events_resolves_once sampleBus ["a", "b"] "a" "b"
      (by decide) (by decide) (by decide) (by decide)).1,
   (listen_events_resolves_once sampleBus ["a", "b"] "a" "b"
      (by decide) (by decide) (by decide) (by decide)).2.2.1⟩

end Landscape
